import Mathlib

/-
Verification development for the coordination core of the sleuth-io/minions
repository (a Go dashboard that supervises coding-agent subprocesses).

The Go sources are shallowly embedded:
  * transcript files are modelled as their byte content (`List Char`, one
    Char per byte; the transcripts handled by the program are ASCII JSONL);
  * `encoding/json.Unmarshal` of a single transcript line is modelled as an
    abstract parameter `pj : List Char → Option Entry` (the JSON library is
    external to the repository); every function that reads a transcript is
    parameterised by it;
  * the filesystem view of the one-shot hook process is a function
    `String → Option (List Char)` (path to file content, `none` = open error);
  * Go `time.Time` values are modelled as `Int` seconds, with the Go zero
    time modelled as `0`;
  * stateful code (status table, message-queue files) is explicit state
    passing over the in-memory values the Go code reads and writes back.
-/

/-! ## Basic string utilities (Go `strings` / `bufio` behaviour) -/

/-- Character list of a string literal. -/
def chars (s : String) : List Char := s.data

/-- Whitespace test matching `unicode.IsSpace` on the ASCII range
(space, tab, newline, carriage return, vertical tab, form feed). -/
def isWsp (c : Char) : Bool :=
  c == ' ' || c == '\t' || c == '\n' || c == '\r' ||
  c == Char.ofNat 11 || c == Char.ofNat 12

/-- Go `strings.TrimSpace` on byte content. -/
def trimSpace (l : List Char) : List Char :=
  ((l.dropWhile isWsp).reverse.dropWhile isWsp).reverse

/-- `l₂` begins with `l₁`. -/
def isPrefixL : List Char → List Char → Bool
  | [], _ => true
  | _ :: _, [] => false
  | a :: as, b :: bs => a == b && isPrefixL as bs

/-- Go `strings.Contains hay needle` on byte content. -/
def containsL (hay needle : List Char) : Bool :=
  match hay with
  | [] => isPrefixL needle []
  | _ :: t => isPrefixL needle hay || containsL t needle

/-- Go `strings.Contains` on strings. -/
def strContains (s sub : String) : Bool := containsL s.data sub.data

/-- Go `strings.ToLower` restricted to ASCII (the only case the denylist
patterns exercise). -/
def lowerChars (l : List Char) : List Char := l.map Char.toLower

/-- Go `strings.HasSuffix`. -/
def endsWithStr (s suf : String) : Bool := isPrefixL suf.data.reverse s.data.reverse

/-- Go `strings.TrimSuffix` (removes one copy of the suffix if present). -/
def trimSuffixStr (s suf : String) : String :=
  if endsWithStr s suf then ⟨s.data.take (s.data.length - suf.data.length)⟩ else s

/-- Go `strings.Split (· , "\n")`: split byte content at every newline,
keeping empty fields. Always returns a nonempty list. -/
def splitOnNl : List Char → List (List Char)
  | [] => [[]]
  | c :: cs =>
    if c == '\n' then [] :: splitOnNl cs
    else
      match splitOnNl cs with
      | [] => [[c]]
      | l :: ls => (c :: l) :: ls

/-- `bufio.ScanLines` drops one trailing `\r` from each token. -/
def dropCR (l : List Char) : List Char :=
  if l.getLast? == some '\r' then l.dropLast else l

/-- Drop the final field iff it is empty (a trailing newline produces no
extra `bufio` token). -/
def stripTrailEmpty : List (List Char) → List (List Char)
  | [] => []
  | [x] => if x == [] then [] else [x]
  | x :: y :: r => x :: stripTrailEmpty (y :: r)

/-- The sequence of tokens a `bufio.Scanner` with `ScanLines` yields on the
given byte content. -/
def scanLines (s : List Char) : List (List Char) :=
  if s == [] then [] else (stripTrailEmpty (splitOnNl s)).map dropCR

/-- Go `strings.Join (·, " ")`. -/
def joinSpace : List (List Char) → List Char
  | [] => []
  | [x] => x
  | x :: y :: r => x ++ ' ' :: joinSpace (y :: r)

/-- The last `some` produced by `f` along the list, scanning forward
(the value retained by a Go loop that overwrites a variable on each hit). -/
def lastSome? {α β : Type} (f : α → Option β) : List α → Option β
  | [] => none
  | x :: xs =>
    match lastSome? f xs with
    | some y => some y
    | none => f x

/-! ## Data model (internal/state/models.go, main.go, internal/claude) -/

/-- One block of an assistant message's content array. -/
structure Block where
  type? : Option String
  text? : Option (List Char)
deriving DecidableEq

/-- The `content` field of a transcript message: a JSON string, an array of
typed blocks, or anything else. -/
inductive MsgContent where
  | str (s : List Char)
  | arr (blocks : List Block)
  | other
deriving DecidableEq

/-- The `message` object of a transcript entry. -/
structure Message where
  role? : Option String
  content : MsgContent
  toolName? : Option String
deriving DecidableEq

/-- One successfully json-decoded transcript line. `timestamp?` is the
RFC3339-parsed time (`none` when the field is absent or unparsable, in which
case the Go code keeps the zero time, modelled as `0`). `content?` is the
top-level `content` field when it is a string (system entries). -/
structure Entry where
  type? : Option String
  timestamp? : Option Int
  content? : Option (List Char)
  message? : Option Message
deriving DecidableEq

/-- Effective Go `TranscriptEntry.Timestamp` (zero time when unset). -/
def entryTime (e : Entry) : Int := e.timestamp?.getD 0

/-- `claude.MessageInfo`. -/
structure MessageInfo where
  content : List Char
  isToolCall : Bool
  toolName : String
  toolAction : String
deriving DecidableEq

/-- `state.AgentStatus` (current schema, internal/state/models.go). -/
structure AgentStatus where
  path : String
  status : String
  lastActivity : Int
  pid : Int
  sessionID : String
  transcriptPath : String
deriving DecidableEq

/-- The superseded `AgentStatus` schema with inline last-message fields
(the `OldAgentStatus` local type in recoverCorruptedAgentStatus). -/
structure OldAgentStatus where
  path : String
  status : String
  lastActivity : Int
  pid : Int
  sessionID : String
  transcriptPath : String
  lastMessage : String
  fullLastMessage : String
deriving DecidableEq

/-- Projection of the legacy schema down to the current one, as performed by
`recoverCorruptedAgentStatus` (drops the message fields). -/
def projectOld (o : OldAgentStatus) : AgentStatus :=
  { path := o.path, status := o.status, lastActivity := o.lastActivity,
    pid := o.pid, sessionID := o.sessionID, transcriptPath := o.transcriptPath }

/-- `state.MinionMessage`. -/
structure MinionMessage where
  id : String
  path : String
  message : String
  timestamp : Int
deriving DecidableEq

/-- `main.HookData` with the two `any` fields reduced to their only observed
property, presence (`!= nil`). -/
structure HookData where
  sessionID : String
  transcriptPath : String
  toolName : String
  toolInputPresent : Bool
  toolOutputPresent : Bool
deriving DecidableEq

/-- A transcript-line JSON decoder (models `encoding/json.Unmarshal` applied
to one trimmed, nonempty line; `none` = malformed line, skipped). -/
abbrev LineParser := List Char → Option Entry

/-- The one-shot hook process's read-only view of transcript files
(`none` = `os.Open` fails). -/
abbrev Fs := String → Option (List Char)

/-! ## Transcript parser (internal/claude, file part_001) -/

/-- The decode outcome of one physical transcript line: blank lines are
skipped before `json.Unmarshal`, malformed lines are skipped by it. -/
def lineEntry (pj : LineParser) (line : List Char) : Option Entry :=
  let t := trimSpace line
  if t == [] then none else pj t

/-- `TranscriptParser.extractMessageContent`: user content is a flat string;
assistant content is an array of typed blocks of which only `text` blocks
contribute, joined with single spaces. -/
def extractMessageContent (m : Message) (role : String) : List Char :=
  if role == "user" then
    match m.content with
    | .str s => s
    | _ => []
  else if role == "assistant" then
    match m.content with
    | .arr bs => joinSpace (bs.filterMap fun b =>
        if b.type? == some "text" then b.text? else none)
    | _ => []
  else []

/-- The open tag removed by `cleanMessageContent`'s regex. -/
def openTagL : List Char := chars "<function_calls>"

/-- The closing tag of the removed block. -/
def closeTagL : List Char := chars "</function_calls>"

/-- Remainder of `s` after the first occurrence of `close`
(`none` when `close` does not occur). -/
def dropThrough (close : List Char) : List Char → Option (List Char)
  | [] => none
  | c :: t =>
    if isPrefixL close (c :: t) then some ((c :: t).drop close.length)
    else dropThrough close t

/-- Global, non-greedy removal of `<function_calls>…</function_calls>`
blocks (the `regexp.ReplaceAllString` in `cleanMessageContent`), written with
a step-count fuel bounded by the input length so the recursion is
structural. Every recursive call strictly shrinks the list, so the fuel
`s.length` used by `removeToolCallBlocks` never runs out. -/
def stripBlocks : Nat → List Char → List Char
  | 0, s => s
  | fuel + 1, s =>
    match s with
    | [] => []
    | c :: t =>
      if isPrefixL openTagL (c :: t) then
        match dropThrough closeTagL ((c :: t).drop openTagL.length) with
        | some rest => stripBlocks fuel rest
        | none => c :: stripBlocks fuel t
      else c :: stripBlocks fuel t

/-- The regex stage of `cleanMessageContent`. -/
def removeToolCallBlocks (s : List Char) : List Char := stripBlocks s.length s

/-- `TranscriptParser.cleanMessageContent` (also duplicated verbatim in
main.go): strip tool-call blocks, then split into lines, trim each, drop
empties, and join with single spaces. -/
def cleanMessageContent (content : List Char) : List Char :=
  let stripped := removeToolCallBlocks content
  let cleanLines := (splitOnNl stripped).filterMap fun line =>
    let trimmed := trimSpace line
    if trimmed == [] then none else some trimmed
  trimSpace (joinSpace cleanLines)

/-- The fixed denylist of `TranscriptParser.IsSystemOutput`. -/
def systemPatterns : List (List Char) :=
  [chars "Config directory:",
   chars "Updated agent status:",
   chars "completed successfully:",
   chars "[1m",
   chars "[/home/",
   chars "--hook",
   chars "Stop [",
   chars "___go_build_"]

/-- `TranscriptParser.IsSystemOutput`: case-insensitive substring match
against the denylist. -/
def isSystemOutput (content : List Char) : Bool :=
  systemPatterns.any fun p => containsL (lowerChars content) (lowerChars p)

/-- Qualification step of `TranscriptIterator.Next`: the entry's `Message`
field is non-nil exactly when a role string is present and the extracted
content is nonempty; returns `(role, content)` in that case. -/
def iterMessage (e : Entry) : Option (String × List Char) :=
  match e.message? with
  | none => none
  | some m =>
    match m.role? with
    | none => none
    | some r =>
      let c := extractMessageContent m r
      if c == [] then none else some (r, c)

/-- Helper shared by the two branches of `parseLineForMessage` that return an
ordinary conversational `MessageInfo`: clean the content and discard it when
the cleaned text is empty or matches the system-output denylist. -/
def conversationalInfo (content : List Char) : Option MessageInfo :=
  if content != [] then
    let cleanContent := cleanMessageContent content
    if cleanContent != [] && !isSystemOutput cleanContent then
      some { content := cleanContent, isToolCall := false, toolName := "", toolAction := "" }
    else none
  else none

/-- The tool-permission check at the top of `parseLineForMessage`: an entry
whose `type` contains `permission` or `tool_request` and whose message
carries a `tool_name` is reported as a tool call; otherwise the check falls
through. -/
def permissionInfo (e : Entry) : Option MessageInfo :=
  match e.type? with
  | some t =>
    if strContains t "permission" || strContains t "tool_request" then
      match e.message? with
      | some m =>
        match m.toolName? with
        | some tn =>
          some { content := chars ("Permission requested to use " ++ tn ++ " tool"),
                 isToolCall := true, toolName := tn,
                 toolAction := "Use " ++ tn ++ " tool" }
        | none => none
      | none => none
    else none
  | none => none

/-- `TranscriptParser.parseLineForMessage` applied to an already-decoded
entry: tool-permission entries are reported as tool calls; user messages
qualify only with flat string content (tool-result arrays are skipped);
assistant messages contribute their `text` blocks. -/
def entryInfo (e : Entry) : Option MessageInfo :=
  match permissionInfo e with
  | some mi => some mi
  | none =>
    match e.message? with
    | none => none
    | some m =>
      match m.role? with
      | none => none
      | some r =>
        if r == "user" || r == "assistant" then
          if r == "user" then
            match m.content with
            | .str s => conversationalInfo s
            | .arr bs =>
              if bs.any (fun b => b.type? == some "tool_result") then none
              else conversationalInfo []
            | .other => conversationalInfo []
          else
            match m.content with
            | .arr bs =>
              conversationalInfo (joinSpace (bs.filterMap fun b =>
                if b.type? == some "text" then b.text? else none))
            | _ => conversationalInfo []
        else none

/-- `parseLineForMessage` on one raw line (trim, decode, qualify). -/
def lineInfo (pj : LineParser) (line : List Char) : Option MessageInfo :=
  match lineEntry pj line with
  | none => none
  | some e => entryInfo e

/-- `TranscriptParser.readLinesFromEnd`: estimate 500 bytes per line, seek to
the estimated position, skip the first (potentially partial) line when the
read did not start at the beginning, and keep only the last `maxLines`
tokens. -/
def readLinesFromEnd (content : List Char) (maxLines : Nat) : List (List Char) :=
  let fileSize := content.length
  if fileSize == 0 then []
  else
    let readSize := min (maxLines * 500) fileSize
    let startPos := fileSize - readSize
    let ls := scanLines (content.drop startPos)
    let ls := if startPos > 0 then ls.drop 1 else ls
    if ls.length > maxLines then ls.drop (ls.length - maxLines) else ls

/-- The `MessageInfo` returned when no valid message is found. -/
def emptyMessageInfo : MessageInfo :=
  { content := [], isToolCall := false, toolName := "", toolAction := "" }

/-- `TranscriptParser.GetLastMessageInfo`: scan the last 50 lines in reverse
order (most recent first) and return the first valid message. -/
def getLastMessageInfo (pj : LineParser) (content : List Char) : MessageInfo :=
  (((readLinesFromEnd content 50).reverse).findSome? (lineInfo pj)).getD emptyMessageInfo

/-- Display truncation used by `GetLastMessage` and main.go. -/
def truncate200 (c : List Char) : List Char :=
  if c.length > 200 then c.take 200 ++ chars "..." else c

/-- `TranscriptParser.GetLastMessage`: format tool-permission requests for
display, otherwise truncate the content to 200 characters plus an ellipsis. -/
def getLastMessage (pj : LineParser) (content : List Char) : List Char :=
  let messageInfo := getLastMessageInfo pj content
  if messageInfo.isToolCall then
    chars ("🔧 Tool permission requested: " ++ messageInfo.toolAction)
  else truncate200 messageInfo.content

/-- The per-line update of `GetLastMessageFull`'s loop: the accumulator is
`(lastUserMessage, lastAssistantMessage)`; a conversational entry whose
cleaned content is nonempty and not system output overwrites its role's
slot. -/
def glmfStep (pj : LineParser) (acc : List Char × List Char) (l : List Char) :
    List Char × List Char :=
  match lineEntry pj l with
  | none => acc
  | some e =>
    match iterMessage e with
    | none => acc
    | some rc =>
      if rc.1 == "user" || rc.1 == "assistant" then
        let cleanContent := cleanMessageContent rc.2
        if cleanContent != [] && !isSystemOutput cleanContent then
          if rc.1 == "assistant" then (acc.1, cleanContent) else (cleanContent, acc.2)
        else acc
      else acc

/-- `TranscriptParser.GetLastMessageFull`: scan the whole file tracking the
most recent qualifying user and assistant messages independently; prefer the
assistant message. -/
def getLastMessageFull (pj : LineParser) (content : List Char) : List Char :=
  let uv := (scanLines content).foldl (glmfStep pj) ([], [])
  if uv.2 != [] then uv.2 else uv.1

/-- The qualifying cleaned content one line contributes to the given role's
slot in `GetLastMessageFull`'s scan (a characterization device: the slot for
`role` is the last `some` of this function along the file). -/
def roleClean (pj : LineParser) (role : String) (l : List Char) : Option (List Char) :=
  match lineEntry pj l with
  | none => none
  | some e =>
    match iterMessage e with
    | none => none
    | some rc =>
      if (rc.1 == "user" || rc.1 == "assistant") && rc.1 == role then
        let cleanContent := cleanMessageContent rc.2
        if cleanContent != [] && !isSystemOutput cleanContent then some cleanContent
        else none
      else none

/-- `TranscriptParser.FindLastConversationalMessage` reduced to the data its
caller uses: the `(Timestamp, Role)` of the last entry with a non-nil
`Message` and a user/assistant role. -/
def lastConversational (pj : LineParser) (content : List Char) : Option (Int × String) :=
  lastSome? (fun l =>
    match lineEntry pj l with
    | none => none
    | some e =>
      match iterMessage e with
      | none => none
      | some rc =>
        if rc.1 == "user" || rc.1 == "assistant" then some (entryTime e, rc.1)
        else none) (scanLines content)

/-- `TranscriptParser.GetLastMessageTimestampAndRole` (zero time and empty
role when there is no conversational message). -/
def getLastMessageTimestampAndRole (pj : LineParser) (content : List Char) :
    Int × String :=
  (lastConversational pj content).getD (0, "")

/-- Content extraction of `GetMostRecentActivity` for one decoded entry:
a direct top-level `content` string (system entries) takes precedence,
otherwise the message content. -/
def activityContent (e : Entry) : List Char :=
  match e.content? with
  | some c => c
  | none =>
    match e.message? with
    | some m =>
      match m.role? with
      | some r => extractMessageContent m r
      | none => []
    | none => []

/-- Per-line step of `GetMostRecentActivity`'s reverse scan. -/
def activityLine (pj : LineParser) (line : List Char) : Option (List Char × Bool) :=
  match lineEntry pj line with
  | none => none
  | some e =>
    let c := activityContent e
    if c != [] then some (c, isSystemOutput c) else none

/-- `TranscriptParser.GetMostRecentActivity`: scan the last 10 lines in
reverse order and return the first nonempty content together with its
system-output flag (`none` models the `("", false, nil)` return). -/
def getMostRecentActivity (pj : LineParser) (content : List Char) :
    Option (List Char × Bool) :=
  ((readLinesFromEnd content 10).reverse).findSome? (activityLine pj)

/-- `TranscriptParser.DetermineSessionStatus`: `waiting` when the most recent
activity is system output or cannot be determined, `running` when it is
conversational. -/
def determineSessionStatus (pj : LineParser) (content : List Char) : String :=
  match getMostRecentActivity pj content with
  | none => "waiting"
  | some (_, isSys) => if isSys then "waiting" else "running"

/-! ## Hook mode (main.go) -/

/-- `main.isWaitingForUser`: the last successfully decoded entry of the
transcript indicates the agent just spoke — its `type` is `assistant`, or
its message carries the assistant role. `false` when the file cannot be
opened or holds no decodable entry. -/
def isWaitingForUser (pj : LineParser) (fs : Fs) (transcriptPath : String) : Bool :=
  match fs transcriptPath with
  | none => false
  | some content =>
    match lastSome? (lineEntry pj) (scanLines content) with
    | none => false
    | some lastEntry =>
      if lastEntry.type? == some "assistant" then true
      else
        match lastEntry.message? with
        | some m => m.role? == some "assistant"
        | none => false

/-- Event classification of `main.handleHookMode` (lines 115–136): payload
shape first, then — only when both `session_id` and `transcript_path` are
present — the transcript's last entry. -/
def determineEvent (pj : LineParser) (fs : Fs) (h : HookData) : String :=
  if h.toolInputPresent then "PreToolUse"
  else if h.toolOutputPresent then "PostToolUse"
  else if h.toolName != "" then "PostToolUse"
  else if h.sessionID != "" && h.transcriptPath != "" then
    if isWaitingForUser pj fs h.transcriptPath then "Notification" else "Stop"
  else "Stop"

/-- `main.determineStatusFromEvent` (the second parameter of the Go function
is unused). -/
def determineStatusFromEvent (event : String) : String :=
  if event == "PreToolUse" then "running"
  else if event == "PostToolUse" then "running"
  else if event == "Notification" then "waiting"
  else if event == "Stop" then "idle"
  else "unknown"

/-- `main.shouldIgnoreStop`: look up the first stored row for the working
directory; ignore the Stop when its status is running/waiting and it was
updated within the last 10 seconds. -/
def shouldIgnoreStop (statuses : List AgentStatus) (workingDir : String) (now : Int) : Bool :=
  match statuses.find? (fun s => s.path == workingDir) with
  | some s =>
    (s.status == "running" || s.status == "waiting") && now - s.lastActivity < 10
  | none => false

/-- The status value `main.handleHookMode` saves for the working directory:
the event-derived status, except that an ignored Stop retains the stored
running/waiting status. -/
def handleHookStatus (pj : LineParser) (fs : Fs) (h : HookData)
    (statuses : List AgentStatus) (workingDir : String) (now : Int) : String :=
  let event := determineEvent pj fs h
  let status := determineStatusFromEvent event
  if event == "Stop" && shouldIgnoreStop statuses workingDir now then
    match statuses.find? (fun s =>
        s.path == workingDir && (s.status == "running" || s.status == "waiting")) with
    | some s => s.status
    | none => status
  else status

/-- `main.extractLastMessageFromTranscript` (hook mode): same scan as the
parser's full extraction but with main.go's inline content logic, which
applies `cleanMessageContent` and *no* system-output filter. Returns
`(truncated, full)`. -/
def extractLastMessageFromTranscript (pj : LineParser) (content : List Char) :
    List Char × List Char :=
  let uv := (scanLines content).foldl (fun acc l =>
    match lineEntry pj l with
    | none => acc
    | some e =>
      match e.message? with
      | none => acc
      | some m =>
        match m.role? with
        | none => acc
        | some r =>
          if r == "user" || r == "assistant" then
            let c := extractMessageContent m r
            if c != [] then
              let cleanContent := cleanMessageContent c
              if cleanContent != [] then
                if r == "assistant" then (acc.1, cleanContent) else (cleanContent, acc.2)
              else acc
            else acc
          else acc) ([], [])
  let fullMessage := if uv.2 != [] then uv.2 else uv.1
  (truncate200 fullMessage, fullMessage)

/-! ## Transcript watcher status update (internal/state/manager.go,
handleTranscriptChange) -/

/-- The status value `handleTranscriptChange` stores for the matched agent
row after a transcript write event handled at time `now` (lines 370–444).
`targetStatus` is a pointer into the slice (`&statuses[i]`, line 370) and
`statuses[statusIndex].LastActivity = time.Now()` runs at line 401, before
the `Before` comparison at line 418 — so the comparison reads the row's
*refreshed* `LastActivity`, i.e. the current handling time, not the
previously stored value. The refresh is modelled by shadowing the row before
any field is read. The decision is gated on the extracted last message being
nonempty and not system output; from `waiting`, move to `running` on a fresh
user message or an (assistant or undetermined) newest message whose
timestamp is not before `now`; from `idle`/`unknown`, always move to
`running`; otherwise keep the status. (The error fallback at lines 411–412
is unreachable here: reading the transcript is modelled as pure.) -/
def transcriptChangeNewStatus (pj : LineParser) (content : List Char)
    (st : AgentStatus) (now : Int) : String :=
  let st := { st with lastActivity := now }
  let lastMessage := getLastMessage pj content
  let shouldChangeToRunning :=
    if lastMessage != [] && !isSystemOutput lastMessage then
      if st.status == "waiting" then
        let tr := getLastMessageTimestampAndRole pj content
        if tr.2 == "user" then true
        else if tr.1 < st.lastActivity then false
        else true
      else if st.status == "idle" || st.status == "unknown" then true
      else false
    else false
  if shouldChangeToRunning then "running" else st.status

/-! ## Startup status correction (internal/state/manager.go,
correctStatusFromTranscripts) -/

/-- One row of the correction pass: rows outside known repositories or
without a discoverable transcript are left alone; otherwise the status field
is replaced by the transcript-derived one. `known` models
`isKnownRepository`; `disc` models `FindMostRecentTranscript` composed with
reading the discovered file (`none` = error or no transcript). -/
def correctOne (pj : LineParser) (known : String → Bool)
    (disc : String → Option (List Char)) (st : AgentStatus) : AgentStatus :=
  if known st.path then
    match disc st.path with
    | none => st
    | some content => { st with status := determineSessionStatus pj content }
  else st

/-- `correctStatusFromTranscripts`: the in-place status rewrite over the
whole table. -/
def correctStatusFromTranscripts (pj : LineParser) (known : String → Bool)
    (disc : String → Option (List Char)) (statuses : List AgentStatus) :
    List AgentStatus :=
  statuses.map (correctOne pj known disc)

/-! ## Minion message queue (internal/state/manager.go) -/

/-- The backing store for one path's queue: `none` models "the message file
does not exist". -/
abbrev MinionQueue := Option (List MinionMessage)

/-- `Manager.GetMinionMessages`: a missing file reads as the empty list. -/
def getMinionMessages (q : MinionQueue) : List MinionMessage :=
  match q with
  | none => []
  | some messages => messages

/-- `Manager.AddMinionMessage`: append the new message and write the file
back. -/
def addMinionMessage (q : MinionQueue) (newMessage : MinionMessage) : MinionQueue :=
  some (getMinionMessages q ++ [newMessage])

/-- `Manager.PopMinionMessage`: remove and return the oldest entry,
rewriting the remainder, or deleting the backing file when the queue becomes
empty. Returns `(popped, new store)`. -/
def popMinionMessage (q : MinionQueue) : Option MinionMessage × MinionQueue :=
  match getMinionMessages q with
  | [] => (none, q)
  | message :: remainingMessages =>
    (some message, if remainingMessages == [] then none else some remainingMessages)

/-! ## Minion supervisor injection (main.go, handleMinionMode) -/

/-- Observable actions of the injection loop on the child's input stream. -/
inductive WriteEvent where
  | wbyte (b : Nat)
  | sleepMs (ms : Nat)
deriving DecidableEq

/-- The byte-by-byte injection of one message (main.go lines 566–579): each
character is written as a single byte (`byte(char)`, i.e. the code point
modulo 256) followed by the 10 ms inter-character delay, then a single
carriage return. -/
def injectMessage (msg : List Char) : List WriteEvent :=
  (msg.map fun c => [WriteEvent.wbyte (c.toNat % 256), WriteEvent.sleepMs 10]).flatten
    ++ [WriteEvent.wbyte 13]

/-- One tick of the message-polling loop after a pop: a popped message is
injected only while the process-running flag is still true; otherwise it is
discarded with no writes. -/
def tickHandler (processRunning : Bool) (popped : Option MinionMessage) :
    List WriteEvent :=
  match popped with
  | none => []
  | some message =>
    if processRunning then injectMessage message.message.data else []

/-- The bytes a list of write events puts on the stream. -/
def writtenBytes (events : List WriteEvent) : List Nat :=
  events.filterMap fun e =>
    match e with
    | .wbyte b => some b
    | .sleepMs _ => none

/-! ## Status store load and corruption recovery
(internal/state/manager.go, GetAgentStatus / recoverCorruptedAgentStatus).
`parseNew` and `parseOld` model `json.Unmarshal` into the current and the
legacy row schema respectively. -/

/-- `Manager.cleanOldFields` (the identity on the current schema). -/
def cleanOldFields (statuses : List AgentStatus) : List AgentStatus := statuses

/-- `Manager.recoverCorruptedAgentStatus`: first strip a duplicated trailing
bracket when the data ends in `]]` and retry the current schema; failing
that, parse the legacy schema and project it down. -/
def recoverCorruptedAgentStatus
    (parseNew : String → Option (List AgentStatus))
    (parseOld : String → Option (List OldAgentStatus))
    (data : String) : Option (List AgentStatus) :=
  let tryOld : Option (List AgentStatus) :=
    match parseOld data with
    | some oldStatuses => some (oldStatuses.map projectOld)
    | none => none
  if endsWithStr data "]]" then
    match parseNew (trimSuffixStr data "]") with
    | some statuses => some (cleanOldFields statuses)
    | none => tryOld
  else tryOld

/-- `Manager.GetAgentStatus` on the bytes read from the status file: a clean
parse wins; otherwise recovery is attempted; when recovery also fails the
table is reset to empty and no error is reported. -/
def getAgentStatusFromData
    (parseNew : String → Option (List AgentStatus))
    (parseOld : String → Option (List OldAgentStatus))
    (data : String) : Except String (List AgentStatus) :=
  match parseNew data with
  | some statuses => .ok statuses
  | none =>
    match recoverCorruptedAgentStatus parseNew parseOld data with
    | some recovered => .ok recovered
    | none => .ok []

/-! ## Spec-side renderings of the claims under test.

These definitions follow the words of the specification sentences behind
the claims (not the code); they exist to be compared with the code-derived
definitions above. -/

/-- The Stop-branch outcome shared by specification and code: `idle`, unless
the debounce retains the stored running/waiting status. -/
def stopBranchStatus (statuses : List AgentStatus) (workingDir : String) (now : Int) :
    String :=
  if shouldIgnoreStop statuses workingDir now then
    match statuses.find? (fun s =>
        s.path == workingDir && (s.status == "running" || s.status == "waiting")) with
    | some s => s.status
    | none => "idle"
  else "idle"

/-- Claim C1 exactly as stated: the saved status is determined by the
payload shape alone — `tool_input` ⇒ running, `tool_output` ⇒ running,
`tool_name` alone ⇒ running, otherwise waiting when the transcript's last
entry is an assistant-role message and idle in all remaining cases (subject
to the Stop debounce). No condition on `session_id`/`transcript_path` is
stated for the transcript inspection. -/
def claimC1StatusAsWritten (pj : LineParser) (fs : Fs) (h : HookData)
    (statuses : List AgentStatus) (workingDir : String) (now : Int) : String :=
  if h.toolInputPresent then "running"
  else if h.toolOutputPresent then "running"
  else if h.toolName != "" then "running"
  else if isWaitingForUser pj fs h.transcriptPath then "waiting"
  else stopBranchStatus statuses workingDir now

/-- Claim C1 amended: the transcript inspection additionally requires the
payload to carry a nonempty `session_id` and `transcript_path`. -/
def claimC1StatusAmended (pj : LineParser) (fs : Fs) (h : HookData)
    (statuses : List AgentStatus) (workingDir : String) (now : Int) : String :=
  if h.toolInputPresent then "running"
  else if h.toolOutputPresent then "running"
  else if h.toolName != "" then "running"
  else if h.sessionID != "" && h.transcriptPath != "" &&
          isWaitingForUser pj fs h.transcriptPath then "waiting"
  else stopBranchStatus statuses workingDir now

/-- Claim C3 as stated for the display-truncated variant: it returns the
same preferred (assistant-over-user) text as the full variant, truncated to
at most 200 characters plus an ellipsis. -/
def claimC3TruncatedAsWritten (pj : LineParser) (content : List Char) : List Char :=
  truncate200 (getLastMessageFull pj content)

/-- Claim C6 as stated: from `waiting`, the status becomes `running` iff the
newest qualifying message's role is `user`, or it is an assistant message
whose timestamp is strictly after the stored `last_activity`; from `idle` or
`unknown`, any qualifying non-system message moves it to `running`; any
other status is left unchanged. -/
def claimC6NewStatusAsWritten (pj : LineParser) (content : List Char)
    (st : AgentStatus) : String :=
  if st.status == "waiting" then
    let tr := getLastMessageTimestampAndRole pj content
    if tr.2 == "user" || (tr.2 == "assistant" && st.lastActivity < tr.1) then "running"
    else st.status
  else if st.status == "idle" || st.status == "unknown" then
    let lastMessage := getLastMessage pj content
    if lastMessage != [] && !isSystemOutput lastMessage then "running" else st.status
  else st.status

/-! ## Concrete fixtures for counterexamples and witnesses -/

/-- A transcript entry that is a plain assistant text message `Hello` with
timestamp 50. -/
def entryAssistantHello : Entry :=
  { type? := some "assistant", timestamp? := some 50, content? := none,
    message? := some { role? := some "assistant",
                       content := .arr [{ type? := some "text", text? := some (chars "Hello") }],
                       toolName? := none } }

/-- A transcript entry that is a plain user message `U`. -/
def entryUserU : Entry :=
  { type? := some "user", timestamp? := some 60, content? := none,
    message? := some { role? := some "user", content := .str (chars "U"),
                       toolName? := none } }

/-- A transcript entry that is a plain assistant text message `A` with
timestamp 40. -/
def entryAssistantA : Entry :=
  { type? := some "assistant", timestamp? := some 40, content? := none,
    message? := some { role? := some "assistant",
                       content := .arr [{ type? := some "text", text? := some (chars "A") }],
                       toolName? := none } }

/-- A user entry whose text matches the `Updated agent status:` denylist
pattern. -/
def entrySystemEcho : Entry :=
  { type? := some "user", timestamp? := some 70, content? := none,
    message? := some { role? := some "user",
                       content := .str (chars "Updated agent status: /w -> idle"),
                       toolName? := none } }

/-- Toy line decoder used by the concrete fixtures: decodes the marker lines
of the fixture transcripts and nothing else. -/
def pjFix : LineParser := fun l =>
  if l == chars "HELLO" then some entryAssistantHello
  else if l == chars "UU" then some entryUserU
  else if l == chars "AA" then some entryAssistantA
  else if l == chars "SYS" then some entrySystemEcho
  else none

/-- Fixture filesystem: one transcript `/t` whose single line decodes to an
assistant entry. -/
def fsFix : Fs := fun p => if p == "/t" then some (chars "HELLO") else none

/-- Hook payload with no tool fields, no session id, but a transcript path:
the input separating claim C1 from the code. -/
def hdNoSession : HookData :=
  { sessionID := "", transcriptPath := "/t", toolName := "",
    toolInputPresent := false, toolOutputPresent := false }

/-- Minimal Stop payload (no tool fields, no session, no transcript). -/
def hdStop : HookData :=
  { sessionID := "", transcriptPath := "", toolName := "",
    toolInputPresent := false, toolOutputPresent := false }

/-- A stored running row for `/w`, last updated at time 100. -/
def stRunning : AgentStatus :=
  { path := "/w", status := "running", lastActivity := 100, pid := 0,
    sessionID := "s", transcriptPath := "/t" }

/-- A stored waiting row for `/p` whose stored `last_activity` (40) is older
than the fixture assistant message's timestamp (50). -/
def stWaitingPast : AgentStatus :=
  { path := "/p", status := "waiting", lastActivity := 40, pid := 0,
    sessionID := "s", transcriptPath := "/t" }

/-- A stored idle row for `/p`. -/
def stIdle : AgentStatus :=
  { path := "/p", status := "idle", lastActivity := 5, pid := 0,
    sessionID := "", transcriptPath := "" }

/-- Two-line fixture transcript: an assistant message `A` followed by a more
recent user message `U`. -/
def contentAU : List Char := chars "AA\nUU"

/-- One-line fixture transcript holding only the assistant `Hello` entry. -/
def contentHello : List Char := chars "HELLO"

/-- One-line fixture transcript holding only the denylisted user echo. -/
def contentSys : List Char := chars "SYS"

/-- A fixture status row used by the store-recovery witness. -/
def rowR : AgentStatus :=
  { path := "/r", status := "idle", lastActivity := 1, pid := 2,
    sessionID := "s", transcriptPath := "/t" }

/-- Toy current-schema parser for the recovery witness: accepts exactly the
well-formed text `[R]`. -/
def parseNewFix : String → Option (List AgentStatus) := fun s =>
  if s == "[R]" then some [rowR] else none

/-- Toy legacy-schema parser that accepts nothing. -/
def parseOldFix : String → Option (List OldAgentStatus) := fun _ => none

/-- Fixture queue messages `a`, `b`, `c` for one path. -/
def msgA : MinionMessage := { id := "1", path := "/q", message := "a", timestamp := 1 }

/-- Second fixture queue message. -/
def msgB : MinionMessage := { id := "2", path := "/q", message := "b", timestamp := 2 }

/-- Third fixture queue message. -/
def msgC : MinionMessage := { id := "3", path := "/q", message := "c", timestamp := 3 }

/-- Fixture minion message `hi` for the injection witness. -/
def msgHi : MinionMessage := { id := "4", path := "/q", message := "hi", timestamp := 4 }

/-! ## Helper lemmas -/

/-- A `find?` hit whose element also satisfies a second test is the first hit
of the conjunction of the two tests. -/
theorem find?_filter_first {p q : AgentStatus → Bool} :
    ∀ {l : List AgentStatus} {s : AgentStatus},
      l.find? p = some s → q s = true →
      l.find? (fun x => p x && q x) = some s := by
  intro l
  induction l with
  | nil => intro s h _; simp [List.find?] at h
  | cons a t ih =>
    intro s h hq
    cases hpa : p a with
    | true =>
      rw [List.find?_cons_of_pos _ hpa] at h
      cases h
      exact List.find?_cons_of_pos _ (by simp [hpa, hq])
    | false =>
      rw [List.find?_cons_of_neg _ (by simp [hpa])] at h
      rw [List.find?_cons_of_neg _ (by simp [hpa]), ih h hq]

/-- `findSome?` distributes over append. -/
theorem findSome?_append {α β : Type} (f : α → Option β) :
    ∀ (l₁ l₂ : List α),
      (l₁ ++ l₂).findSome? f =
        match l₁.findSome? f with
        | some b => some b
        | none => l₂.findSome? f := by
  intro l₁ l₂
  induction l₁ with
  | nil => simp [List.findSome?]
  | cons a t ih =>
    simp only [List.cons_append, List.findSome?]
    cases f a <;> simp [ih]

/-- Scanning the reversed list for the first `some` is the same as keeping
the last `some` of a forward scan. -/
theorem reverse_findSome?_eq_lastSome? {α β : Type} (f : α → Option β) :
    ∀ (l : List α), l.reverse.findSome? f = lastSome? f l := by
  intro l
  induction l with
  | nil => rfl
  | cons a t ih =>
    rw [List.reverse_cons, findSome?_append, ih]
    cases h : lastSome? f t with
    | some y => simp [lastSome?, h]
    | none => cases hfa : f a <;> simp [lastSome?, h, hfa, List.findSome?]

/-- A property of every `some` produced by `f` holds of any `findSome?`
result. -/
theorem findSome?_prop {α β : Type} {f : α → Option β} {P : β → Prop}
    (hf : ∀ a b, f a = some b → P b) :
    ∀ (l : List α) (b : β), l.findSome? f = some b → P b := by
  intro l
  induction l with
  | nil => intro b h; simp [List.findSome?] at h
  | cons a t ih =>
    intro b h
    simp only [List.findSome?] at h
    cases hfa : f a with
    | some c => rw [hfa] at h; cases h; exact hf a b hfa
    | none => rw [hfa] at h; exact ih b h

/-- Unfolding `endsWithStr` from an explicit trailing character. -/
theorem endsWithStr_of_data {s : String} {w : List Char} {c : Char}
    (h : s.data = w ++ [c]) : endsWithStr s ⟨[c]⟩ = true := by
  unfold endsWithStr
  rw [show (⟨[c]⟩ : String).data = [c] from rfl, h, List.reverse_append]
  simp [isPrefixL]

/-- A string ending in `]` has an explicit trailing bracket. -/
theorem data_of_endsWith_rbracket {s : String}
    (h : endsWithStr s "]" = true) : ∃ w, s.data = w ++ [']'] := by
  unfold endsWithStr at h
  rw [show ("]" : String).data.reverse = [']'] from rfl] at h
  cases hrev : s.data.reverse with
  | nil => rw [hrev] at h; simp [isPrefixL] at h
  | cons b bs =>
    rw [hrev] at h
    have hb : b = ']' := by
      simp only [isPrefixL, Bool.and_eq_true, beq_iff_eq, and_true] at h
      exact h.symm
    refine ⟨bs.reverse, ?_⟩
    have h2 : s.data = (b :: bs).reverse := by
      rw [← hrev, List.reverse_reverse]
    rw [h2, List.reverse_cons, hb]

/-! ## Claim C4 — message-queue FIFO -/

/-- C4: the message queue is strictly FIFO per path. A pop on a nonempty
queue removes exactly the oldest entry and rewrites the remainder (deleting
the backing file when it becomes empty); enqueuing `a`, `b`, `c` and popping
three times yields `a`, `b`, `c`, a fourth pop yields `none`, and after the
last pop the backing file no longer exists. -/
theorem minionQueueFIFO :
    (∀ (q : MinionQueue) (m : MinionMessage) (rest : List MinionMessage),
        getMinionMessages q = m :: rest →
        popMinionMessage q = (some m, if rest == [] then none else some rest)) ∧
    (addMinionMessage (addMinionMessage (addMinionMessage none msgA) msgB) msgC =
        some [msgA, msgB, msgC] ∧
      popMinionMessage (some [msgA, msgB, msgC]) = (some msgA, some [msgB, msgC]) ∧
      popMinionMessage (some [msgB, msgC]) = (some msgB, some [msgC]) ∧
      popMinionMessage (some [msgC]) = (some msgC, none) ∧
      popMinionMessage none = (none, none)) := by
  constructor
  · intro q m rest h
    unfold popMinionMessage
    rw [h]
  · exact ⟨rfl, rfl, rfl, rfl, rfl⟩

/-- Witness for C4's general pop law at a concrete one-element queue. -/
theorem minionQueueFIFO_witness :
    popMinionMessage (some [msgA]) = (some msgA, none) := by
  have h := minionQueueFIFO.1 (some [msgA]) msgA [] rfl
  exact h

/-! ## Claim C7 — minion injection byte stream -/

/-- C7: a message popped while the child is alive is written as one byte per
character, in order, each followed by the 10 ms inter-character delay, then
a single carriage return; a message popped after the child's exit has been
observed produces no writes at all. -/
theorem minionInjection :
    ∀ (m : MinionMessage),
      (∀ c ∈ m.message.data, c.toNat < 256) →
      tickHandler true (some m) =
        (m.message.data.map fun c =>
          [WriteEvent.wbyte c.toNat, WriteEvent.sleepMs 10]).flatten
          ++ [WriteEvent.wbyte 13] ∧
      writtenBytes (tickHandler true (some m)) =
        m.message.data.map Char.toNat ++ [13] ∧
      tickHandler false (some m) = [] := by
  intro m hascii
  have hmap : m.message.data.map (fun c => c.toNat % 256) = m.message.data.map Char.toNat :=
    List.map_congr_left fun c hc => Nat.mod_eq_of_lt (hascii c hc)
  have hbytes : ∀ (l : List Char),
      writtenBytes (injectMessage l) = l.map (fun c => c.toNat % 256) ++ [13] := by
    intro l
    induction l with
    | nil => rfl
    | cons c t ih =>
      simp only [injectMessage, List.map_cons, List.flatten_cons, List.cons_append,
        List.nil_append, writtenBytes, List.filterMap_cons] at ih ⊢
      simpa using ih
  refine ⟨?_, ?_, rfl⟩
  · show injectMessage m.message.data = _
    unfold injectMessage
    rw [show (m.message.data.map fun c =>
          [WriteEvent.wbyte (c.toNat % 256), WriteEvent.sleepMs 10]) =
        (m.message.data.map fun c =>
          [WriteEvent.wbyte c.toNat, WriteEvent.sleepMs 10]) from
      List.map_congr_left fun c hc => by rw [Nat.mod_eq_of_lt (hascii c hc)]]
  · show writtenBytes (injectMessage m.message.data) = _
    rw [hbytes, hmap]

/-- Witness for C7 on the spec's own example message `hi`: the bytes `h`,
`i`, `\r` in that order, separated by the delay; nothing after exit. -/
theorem minionInjection_witness :
    tickHandler true (some msgHi) =
      [WriteEvent.wbyte 104, WriteEvent.sleepMs 10, WriteEvent.wbyte 105,
       WriteEvent.sleepMs 10, WriteEvent.wbyte 13] ∧
    writtenBytes (tickHandler true (some msgHi)) = [104, 105, 13] ∧
    tickHandler false (some msgHi) = [] := by
  have h := minionInjection msgHi (by decide)
  refine ⟨?_, ?_, h.2.2⟩
  · rw [h.1]; rfl
  · rw [h.2.1]; rfl

/-! ## Claim C2 — Stop debounce -/

/-- C2: when a hook invocation classifies as Stop while the stored status
for the working directory is running/waiting with `last_activity` less than
10 seconds old, the transition to idle is discarded and the stored status is
retained — such a Stop never lowers the status to idle. -/
theorem stopDebounceRetains :
    ∀ (pj : LineParser) (fs : Fs) (h : HookData) (statuses : List AgentStatus)
      (workingDir : String) (now : Int) (s : AgentStatus),
      determineEvent pj fs h = "Stop" →
      statuses.find? (fun x => x.path == workingDir) = some s →
      (s.status = "running" ∨ s.status = "waiting") →
      now - s.lastActivity < 10 →
      handleHookStatus pj fs h statuses workingDir now = s.status ∧
      handleHookStatus pj fs h statuses workingDir now ≠ "idle" := by
  intro pj fs h sts wd now s hev hfind hst htime
  have hq : (s.status == "running" || s.status == "waiting") = true := by
    rcases hst with h1 | h1 <;> simp [h1]
  have hign : shouldIgnoreStop sts wd now = true := by
    unfold shouldIgnoreStop
    rw [hfind]
    simp [hq, htime]
  have hfind2 : sts.find? (fun x =>
      x.path == wd && (x.status == "running" || x.status == "waiting")) = some s :=
    find?_filter_first hfind hq
  have hres : handleHookStatus pj fs h sts wd now = s.status := by
    unfold handleHookStatus
    rw [hev, hign, hfind2]
    simp
  refine ⟨hres, ?_⟩
  rw [hres]
  rcases hst with h1 | h1 <;> rw [h1] <;> decide

/-- Witness for C2: a minimal Stop payload against a running row updated 5
seconds ago keeps the status `running`. -/
theorem stopDebounceRetains_witness :
    handleHookStatus pjFix (fun _ => none) hdStop [stRunning] "/w" 105 = "running" ∧
    handleHookStatus pjFix (fun _ => none) hdStop [stRunning] "/w" 105 ≠ "idle" := by
  have h := stopDebounceRetains pjFix (fun _ => none) hdStop [stRunning] "/w" 105 stRunning
    (by decide) (by decide) (Or.inl rfl) (by decide)
  exact h

/-! ## Claim C5 — status-store corruption recovery -/

/-- C5: loading status bytes that are a well-formed row array followed by a
duplicated trailing `]` succeeds and yields exactly the rows of the
well-formed array; when the bracket repair does not apply or fails, the
bytes are parsed under the superseded legacy schema and projected down; and
when both repair strategies fail the load returns an empty table without
reporting an error. -/
theorem statusStoreRecovery :
    ∀ (parseNew : String → Option (List AgentStatus))
      (parseOld : String → Option (List OldAgentStatus))
      (data wf : String) (rows : List AgentStatus) (olds : List OldAgentStatus),
      (data = wf ++ "]" → endsWithStr wf "]" = true →
        parseNew data = none → parseNew wf = some rows →
        getAgentStatusFromData parseNew parseOld data = .ok rows) ∧
      (parseNew data = none →
        (endsWithStr data "]]" = true → parseNew (trimSuffixStr data "]") = none) →
        parseOld data = some olds →
        getAgentStatusFromData parseNew parseOld data = .ok (olds.map projectOld)) ∧
      (parseNew data = none →
        (endsWithStr data "]]" = true → parseNew (trimSuffixStr data "]") = none) →
        parseOld data = none →
        getAgentStatusFromData parseNew parseOld data = .ok []) := by
  intro parseNew parseOld data wf rows olds
  refine ⟨?_, ?_, ?_⟩
  · intro hdata hwf hfail hok
    obtain ⟨w, hw⟩ := data_of_endsWith_rbracket hwf
    have hdd : data.data = w ++ [']', ']'] := by
      rw [hdata]
      show wf.data ++ ("]" : String).data = _
      rw [hw, show ("]" : String).data = [']'] from rfl, List.append_assoc]
      rfl
    have hends2 : endsWithStr data "]]" = true := by
      unfold endsWithStr
      rw [show ("]]" : String).data.reverse = [']', ']'] from rfl, hdd,
        List.reverse_append]
      simp [isPrefixL]
    have hends1 : endsWithStr data "]" = true :=
      endsWithStr_of_data (c := ']') (w := w ++ [']'])
        (by rw [hdd, List.append_assoc]; rfl)
    have htrim : trimSuffixStr data "]" = wf := by
      unfold trimSuffixStr
      rw [hends1]
      simp only [if_true]
      have hlen : data.data.length - ("]" : String).data.length = wf.data.length := by
        rw [hdata]
        show (wf.data ++ ("]" : String).data).length - _ = _
        simp
      rw [hlen]
      have : data.data.take wf.data.length = wf.data := by
        rw [hdata]
        show (wf.data ++ ("]" : String).data).take wf.data.length = wf.data
        exact List.take_left wf.data _
      rw [this]
    unfold getAgentStatusFromData recoverCorruptedAgentStatus
    simp [hfail, hends2, htrim, hok, cleanOldFields]
  · intro hfail hfix hold
    unfold getAgentStatusFromData recoverCorruptedAgentStatus
    cases hends : endsWithStr data "]]" with
    | true => simp [hfail, hends, hfix hends, hold]
    | false => simp [hfail, hends, hold]
  · intro hfail hfix hold
    unfold getAgentStatusFromData recoverCorruptedAgentStatus
    cases hends : endsWithStr data "]]" with
    | true => simp [hfail, hends, hfix hends, hold]
    | false => simp [hfail, hends, hold]

/-- Witness for C5 at the spec's own test: a file ending in `]]` loads the
same rows as the equivalent well-formed file. -/
theorem statusStoreRecovery_witness :
    getAgentStatusFromData parseNewFix parseOldFix "[R]]" = .ok [rowR] := by
  exact (statusStoreRecovery parseNewFix parseOldFix "[R]]" "[R]" [rowR] []).1
    (by decide) (by decide) (by decide) (by decide)

/-! ## Claim C1 — hook event classification -/

/-- C1 (amended): the status the hook saves is determined by the payload
shape — `tool_input` ⇒ running, else `tool_output` ⇒ running, else
`tool_name` alone ⇒ running; otherwise, when the payload carries a nonempty
`session_id` and `transcript_path` and the transcript's last entry is an
assistant-role message, waiting; in all remaining cases idle, subject only
to the Stop-debounce rule. (The original claim omitted the
`session_id`/`transcript_path` requirement on the transcript inspection.) -/
theorem hookStatusShape :
    ∀ (pj : LineParser) (fs : Fs) (h : HookData) (statuses : List AgentStatus)
      (workingDir : String) (now : Int),
      handleHookStatus pj fs h statuses workingDir now =
        claimC1StatusAmended pj fs h statuses workingDir now := by
  intro pj fs h sts wd now
  unfold handleHookStatus claimC1StatusAmended determineEvent stopBranchStatus
  cases hti : h.toolInputPresent with
  | true => simp [determineStatusFromEvent]
  | false =>
    cases hto : h.toolOutputPresent with
    | true => simp [determineStatusFromEvent]
    | false =>
      cases htn : h.toolName != "" with
      | true => simp [determineStatusFromEvent]
      | false =>
        cases hse : h.sessionID != "" && h.transcriptPath != "" with
        | true =>
          cases hwu : isWaitingForUser pj fs h.transcriptPath with
          | true => simp [hse, hwu, determineStatusFromEvent]
          | false =>
            simp only [hse, hwu, if_true, if_false, Bool.true_and, Bool.false_and]
            simp [determineStatusFromEvent]
        | false =>
          simp only [hse, Bool.false_and, if_false]
          simp [determineStatusFromEvent]

/-- Counterexample to C1 as stated: a payload with an empty `session_id` but
a valid `transcript_path` whose transcript ends in an assistant message is
classified Stop by the code (status idle), while the claim's shape rule
would classify it Notification (status waiting). -/
theorem hookStatusShape_counterexample :
    handleHookStatus pjFix fsFix hdNoSession [] "/w" 0 = "idle" ∧
    claimC1StatusAsWritten pjFix fsFix hdNoSession [] "/w" 0 = "waiting" := by
  constructor
  · rfl
  · rfl

/-! ## Claim C6 — watcher status transitions on transcript change -/

/-- C6 (amended): on every transcript write event, handled at time `now`,
the handler first refreshes the matched row's `last_activity` to `now`, and
the timestamp comparison reads that refreshed value (pointer aliasing,
manager.go lines 370/401/418). When the stored status is `waiting` the
status becomes `running` iff the extracted last message is nonempty and not
system output and either the newest conversational message's role is `user`
or its timestamp is *not before* the handling time `now` — so an assistant
message whose timestamp lies in the past never triggers the transition, no
matter how it compares to the previously stored `last_activity`; when the
stored status is `idle` or `unknown` it becomes `running` iff the extracted
last message is nonempty and not system output; any other stored status is
left unchanged. (The original claim compared the assistant timestamp to the
previously stored `last_activity`.) -/
theorem watcherTransition :
    ∀ (pj : LineParser) (content : List Char) (st : AgentStatus) (now : Int),
      (st.status = "waiting" →
        (transcriptChangeNewStatus pj content st now = "running" ↔
          (getLastMessage pj content ≠ [] ∧
           isSystemOutput (getLastMessage pj content) = false ∧
           ((getLastMessageTimestampAndRole pj content).2 = "user" ∨
            ¬ (getLastMessageTimestampAndRole pj content).1 < now)))) ∧
      ((st.status = "idle" ∨ st.status = "unknown") →
        (transcriptChangeNewStatus pj content st now = "running" ↔
          (getLastMessage pj content ≠ [] ∧
           isSystemOutput (getLastMessage pj content) = false))) ∧
      (st.status ≠ "waiting" → st.status ≠ "idle" → st.status ≠ "unknown" →
        transcriptChangeNewStatus pj content st now = st.status) := by
  intro pj content st now
  unfold transcriptChangeNewStatus
  dsimp only
  refine ⟨?_, ?_, ?_⟩
  · intro hw
    rw [hw]
    cases hlm : getLastMessage pj content == [] with
    | true =>
      have hlm' : getLastMessage pj content = [] := by simpa using hlm
      simp [hlm, hlm']
    | false =>
      have hlm' : getLastMessage pj content ≠ [] := by simpa using hlm
      cases hsys : isSystemOutput (getLastMessage pj content) with
      | true => simp [hlm, hsys]
      | false =>
        cases hu : (getLastMessageTimestampAndRole pj content).2 == "user" with
        | true =>
          have hu' : (getLastMessageTimestampAndRole pj content).2 = "user" := by
            simpa using hu
          simp [hlm, hsys, hu, hlm', hu']
        | false =>
          have hu' : (getLastMessageTimestampAndRole pj content).2 ≠ "user" := by
            simpa using hu
          by_cases hlt : (getLastMessageTimestampAndRole pj content).1 < now
          · simp [hlm, hsys, hu, hlt, hlm', hu']
          · simp [hlm, hsys, hu, hlt, hlm', hu']
  · intro hio
    have hne : (st.status == "waiting") = false := by
      rcases hio with h1 | h1 <;> simp [h1]
    have hio' : (st.status == "idle" || st.status == "unknown") = true := by
      rcases hio with h1 | h1 <;> simp [h1]
    have hnr : st.status ≠ "running" := by
      rcases hio with h1 | h1 <;> rw [h1] <;> decide
    cases hlm : getLastMessage pj content == [] with
    | true =>
      have hlm' : getLastMessage pj content = [] := by simpa using hlm
      simp [hne, hio', hlm, hlm', hnr]
    | false =>
      have hlm' : getLastMessage pj content ≠ [] := by simpa using hlm
      cases hsys : isSystemOutput (getLastMessage pj content) with
      | true => simp [hne, hio', hlm, hsys, hnr]
      | false => simp [hne, hio', hlm, hsys, hlm', hnr]
  · intro h1 h2 h3
    simp [h1, h2, h3]

/-- Witness for C6: an idle row plus a fresh conversational assistant
message moves the status to running. -/
theorem watcherTransition_witness :
    transcriptChangeNewStatus pjFix contentHello stIdle 100 = "running" := by
  exact ((watcherTransition pjFix contentHello stIdle 100).2.1 (Or.inl rfl)).mpr
    ⟨by decide, by decide⟩

/-- Counterexample to C6 as stated: a waiting row with stored
`last_activity` 40 and a newest assistant message with timestamp 50, handled
at time 100. The claim as stated (timestamp after the stored
`last_activity`: 50 > 40) predicts a transition to running, but the code
refreshes the row's `last_activity` to the handling time before comparing
(manager.go 401/418), computes `50 < 100`, and keeps the status waiting. -/
theorem watcherTransition_counterexample :
    transcriptChangeNewStatus pjFix contentHello stWaitingPast 100 = "waiting" ∧
    claimC6NewStatusAsWritten pjFix contentHello stWaitingPast = "running" := by
  constructor
  · rfl
  · rfl

/-! ## Claim C9 — one-shot startup status correction -/

/-- C9: whenever the correction pass runs, every known-repository row with a
discoverable transcript has its status re-derived solely from the
transcript's most recent activity — waiting on system output or when no
activity can be determined, running on conversational activity — and this
value overrides whatever status was previously stored (the corrected status
does not depend on the stored one). -/
theorem startupCorrection :
    ∀ (pj : LineParser) (known : String → Bool) (disc : String → Option (List Char))
      (statuses : List AgentStatus) (i : Nat) (hi : i < statuses.length)
      (content : List Char),
      known statuses[i].path = true →
      disc statuses[i].path = some content →
      (correctStatusFromTranscripts pj known disc statuses)[i]? =
        some { statuses[i] with status := determineSessionStatus pj content } ∧
      determineSessionStatus pj content =
        (match getMostRecentActivity pj content with
         | none => "waiting"
         | some a => if a.2 then "waiting" else "running") ∧
      (∀ s' : String,
        correctOne pj known disc { statuses[i] with status := s' } =
          { statuses[i] with status := determineSessionStatus pj content }) := by
  intro pj known disc sts i hi content hknown hdisc
  refine ⟨?_, ?_, ?_⟩
  · unfold correctStatusFromTranscripts
    rw [List.getElem?_map, List.getElem?_eq_getElem hi]
    simp [correctOne, hknown, hdisc]
  · unfold determineSessionStatus
    cases getMostRecentActivity pj content with
    | none => rfl
    | some a => rfl
  · intro s'
    simp [correctOne, hknown, hdisc]

/-- Witness for C9: an idle row whose transcript's most recent activity is a
denylisted system echo is corrected to waiting. -/
theorem startupCorrection_witness :
    (correctStatusFromTranscripts pjFix (fun _ => true)
        (fun p => if p == "/p" then some contentSys else none) [stIdle])[0]? =
      some { stIdle with status := "waiting" } := by
  have h := (startupCorrection pjFix (fun _ => true)
    (fun p => if p == "/p" then some contentSys else none) [stIdle] 0
    (by decide) contentSys rfl (by decide)).1
  rw [h]
  rfl

/-! ## Claim C8 — the system-output denylist filter -/

/-- An accumulator slot of `GetLastMessageFull`'s loop is either still empty
or holds a non-denylisted cleaned message; one loop step preserves this. -/
theorem glmfStep_inv (pj : LineParser) (acc : List Char × List Char) (l : List Char)
    (h1 : acc.1 = [] ∨ isSystemOutput acc.1 = false)
    (h2 : acc.2 = [] ∨ isSystemOutput acc.2 = false) :
    ((glmfStep pj acc l).1 = [] ∨ isSystemOutput (glmfStep pj acc l).1 = false) ∧
    ((glmfStep pj acc l).2 = [] ∨ isSystemOutput (glmfStep pj acc l).2 = false) := by
  unfold glmfStep
  cases lineEntry pj l with
  | none => exact ⟨h1, h2⟩
  | some e =>
    dsimp only
    cases iterMessage e with
    | none => exact ⟨h1, h2⟩
    | some rc =>
      dsimp only
      cases hr : rc.1 == "user" || rc.1 == "assistant" with
      | false => simp only [hr, Bool.false_eq_true, if_false]; exact ⟨h1, h2⟩
      | true =>
        cases hok : cleanMessageContent rc.2 != [] &&
            !isSystemOutput (cleanMessageContent rc.2) with
        | false => simp only [hr, hok, if_true, Bool.false_eq_true, if_false]; exact ⟨h1, h2⟩
        | true =>
          have hsys : isSystemOutput (cleanMessageContent rc.2) = false := by
            have := (Bool.and_eq_true _ _).mp hok
            simpa using this.2
          cases ha : rc.1 == "assistant" with
          | true => simp only [hr, hok, ha, if_true]; exact ⟨h1, Or.inr hsys⟩
          | false =>
            simp only [hr, hok, ha, if_true, Bool.false_eq_true, if_false]
            exact ⟨Or.inr hsys, h2⟩

/-- The loop of `GetLastMessageFull` keeps the invariant along any line
list. -/
theorem glmfFold_inv (pj : LineParser) :
    ∀ (lines : List (List Char)) (acc : List Char × List Char),
      (acc.1 = [] ∨ isSystemOutput acc.1 = false) →
      (acc.2 = [] ∨ isSystemOutput acc.2 = false) →
      ((lines.foldl (glmfStep pj) acc).1 = [] ∨
        isSystemOutput (lines.foldl (glmfStep pj) acc).1 = false) ∧
      ((lines.foldl (glmfStep pj) acc).2 = [] ∨
        isSystemOutput (lines.foldl (glmfStep pj) acc).2 = false) := by
  intro lines
  induction lines with
  | nil => intro acc h1 h2; exact ⟨h1, h2⟩
  | cons l t ih =>
    intro acc h1 h2
    have hstep := glmfStep_inv pj acc l h1 h2
    exact ih (glmfStep pj acc l) hstep.1 hstep.2

/-- A conversational `MessageInfo` only arises from cleaned content that is
nonempty and passes the denylist. -/
theorem conversationalInfo_inv (c : List Char) (mi : MessageInfo)
    (h : conversationalInfo c = some mi) :
    mi.isToolCall = false ∧ mi.content ≠ [] ∧ isSystemOutput mi.content = false := by
  unfold conversationalInfo at h
  cases hc : c != [] with
  | false => rw [hc] at h; simp at h
  | true =>
    rw [hc] at h
    simp only [if_true] at h
    cases hok : cleanMessageContent c != [] && !isSystemOutput (cleanMessageContent c) with
    | false => rw [hok] at h; simp at h
    | true =>
      rw [hok] at h
      simp only [if_true, Option.some.injEq] at h
      have hpair := (Bool.and_eq_true _ _).mp hok
      refine ⟨by rw [← h], ?_, ?_⟩
      · rw [← h]
        simpa using hpair.1
      · rw [← h]
        simpa using hpair.2

/-- The tool-permission check only ever reports tool calls. -/
theorem permissionInfo_toolCall (e : Entry) (mi : MessageInfo)
    (h : permissionInfo e = some mi) : mi.isToolCall = true := by
  unfold permissionInfo at h
  cases hy : e.type? with
  | none => rw [hy] at h; simp at h
  | some t =>
    rw [hy] at h
    by_cases hp : (strContains t "permission" || strContains t "tool_request") = true
    · simp only [hp, if_true] at h
      cases hm : e.message? with
      | none => rw [hm] at h; simp at h
      | some m =>
        rw [hm] at h
        dsimp only at h
        cases htn : m.toolName? with
        | none => rw [htn] at h; simp at h
        | some tn =>
          rw [htn] at h
          simp only [Option.some.injEq] at h
          rw [← h]
    · simp [Bool.of_not_eq_true hp] at h

/-- A non-tool-call `MessageInfo` produced by `parseLineForMessage` from a
decoded entry never carries denylisted content. -/
theorem entryInfo_inv (e : Entry) (mi : MessageInfo)
    (h : entryInfo e = some mi) (htc : mi.isToolCall = false) :
    mi.content ≠ [] ∧ isSystemOutput mi.content = false := by
  unfold entryInfo at h
  cases hperm : permissionInfo e with
  | some mi' =>
    rw [hperm] at h
    have hmi : mi' = mi := by simpa using h
    subst hmi
    have hcall := permissionInfo_toolCall e mi' hperm
    rw [htc] at hcall
    simp at hcall
  | none =>
    rw [hperm] at h
    cases hm : e.message? with
    | none => rw [hm] at h; simp at h
    | some m =>
      rw [hm] at h
      dsimp only at h
      cases hr : m.role? with
      | none => rw [hr] at h; simp at h
      | some r =>
        rw [hr] at h
        dsimp only at h
        by_cases hru2 : (r == "user" || r == "assistant") = true
        · simp only [hru2, if_true] at h
          by_cases hu : (r == "user") = true
          · simp only [hu, if_true] at h
            cases hc : m.content with
            | str s => rw [hc] at h; dsimp only at h; exact (conversationalInfo_inv _ _ h).2
            | arr bs =>
              rw [hc] at h
              dsimp only at h
              by_cases htr : (bs.any fun b => b.type? == some "tool_result") = true
              · simp [htr] at h
              · simp only [Bool.of_not_eq_true htr, Bool.false_eq_true, if_false] at h
                exact (conversationalInfo_inv _ _ h).2
            | other => rw [hc] at h; dsimp only at h; exact (conversationalInfo_inv _ _ h).2
          · simp only [Bool.of_not_eq_true hu, Bool.false_eq_true, if_false] at h
            cases hc : m.content with
            | str s => rw [hc] at h; dsimp only at h; exact (conversationalInfo_inv _ _ h).2
            | arr bs => rw [hc] at h; dsimp only at h; exact (conversationalInfo_inv _ _ h).2
            | other => rw [hc] at h; dsimp only at h; exact (conversationalInfo_inv _ _ h).2
        · simp [Bool.of_not_eq_true hru2] at h

/-- C8 (amended): in the transcript parser's last-message extractions — the
full scan and the 50-line windowed scan — a message whose cleaned text
contains a denylist substring (matched case-insensitively) is never
selected, even when it is the most recent line; the hook-mode extraction in
main.go, by contrast, applies no such filter (see the counterexample). -/
theorem systemFilterParser :
    ∀ (pj : LineParser) (content : List Char),
      (getLastMessageFull pj content ≠ [] →
        isSystemOutput (getLastMessageFull pj content) = false) ∧
      (∀ mi : MessageInfo, getLastMessageInfo pj content = mi →
        mi.isToolCall = false → mi.content ≠ [] →
        isSystemOutput mi.content = false) := by
  intro pj content
  constructor
  · intro hne
    have hinv := glmfFold_inv pj (scanLines content) ([], [])
      (Or.inl rfl) (Or.inl rfl)
    unfold getLastMessageFull at hne ⊢
    dsimp only at hne ⊢
    by_cases hful : ((scanLines content).foldl (glmfStep pj) ([], [])).2 = []
    · simp [hful] at hne ⊢
      rcases hinv.1 with h1 | h1
      · exact absurd h1 hne
      · exact h1
    · simp [hful] at hne ⊢
      rcases hinv.2 with h1 | h1
      · exact absurd h1 hful
      · exact h1
  · intro mi hmi htc hne
    unfold getLastMessageInfo at hmi
    cases hfs : ((readLinesFromEnd content 50).reverse).findSome? (lineInfo pj) with
    | none =>
      rw [hfs] at hmi
      simp only [Option.getD_none] at hmi
      rw [← hmi] at hne
      simp [emptyMessageInfo] at hne
    | some mi' =>
      rw [hfs] at hmi
      simp only [Option.getD_some] at hmi
      rw [← hmi] at htc ⊢
      have hprop : ∀ (l : List Char) (b : MessageInfo),
          lineInfo pj l = some b →
          (b.isToolCall = false → b.content ≠ [] ∧ isSystemOutput b.content = false) := by
        intro l b hl
        unfold lineInfo at hl
        cases hle : lineEntry pj l with
        | none => rw [hle] at hl; simp at hl
        | some e => rw [hle] at hl; exact fun htc' => entryInfo_inv e b hl htc'
      exact (findSome?_prop hprop _ mi' hfs htc).2

/-- Witness for C8: the preferred full message of the two-line fixture is
nonempty, so the theorem yields that it is not system output. -/
theorem systemFilterParser_witness :
    isSystemOutput (getLastMessageFull pjFix contentAU) = false :=
  (systemFilterParser pjFix contentAU).1 (by decide)

/-- Counterexample to C8 as stated: the hook-mode extraction
(`extractLastMessageFromTranscript` in main.go) selects a message whose text
contains the denylist substring `Updated agent status:` when it is the most
recent line — that code path has no system-output filter. -/
theorem systemFilterParser_counterexample :
    (extractLastMessageFromTranscript pjFix contentSys).2 =
      chars "Updated agent status: /w -> idle" ∧
    isSystemOutput (chars "Updated agent status: /w -> idle") = true := by
  constructor
  · rfl
  · rfl

/-! ## Claim C3 — last-message selection, full versus truncated variant -/

/-- `lastSome?` analogue of `findSome?_prop`. -/
theorem lastSome?_prop {α β : Type} {f : α → Option β} {P : β → Prop}
    (hf : ∀ a b, f a = some b → P b) :
    ∀ (l : List α) (b : β), lastSome? f l = some b → P b := by
  intro l
  induction l with
  | nil => intro b h; simp [lastSome?] at h
  | cons a t ih =>
    intro b h
    unfold lastSome? at h
    cases hls : lastSome? f t with
    | some y =>
      rw [hls] at h
      dsimp only at h
      cases h
      exact ih _ hls
    | none =>
      rw [hls] at h
      dsimp only at h
      exact hf a b h

/-- A role slot contribution is never the empty message. -/
theorem roleClean_ne_nil (pj : LineParser) (role : String) (l : List Char)
    (c : List Char) (h : roleClean pj role l = some c) : c ≠ [] := by
  unfold roleClean at h
  cases hle : lineEntry pj l with
  | none => rw [hle] at h; simp at h
  | some e =>
    rw [hle] at h
    dsimp only at h
    cases him : iterMessage e with
    | none => rw [him] at h; simp at h
    | some rc =>
      rw [him] at h
      dsimp only at h
      by_cases hr : ((rc.1 == "user" || rc.1 == "assistant") && rc.1 == role) = true
      · simp only [hr, if_true] at h
        by_cases hok : (cleanMessageContent rc.2 != [] &&
            !isSystemOutput (cleanMessageContent rc.2)) = true
        · simp only [hok, if_true, Option.some.injEq] at h
          have := (Bool.and_eq_true _ _).mp hok
          rw [← h]
          simpa using this.1
        · simp [Bool.of_not_eq_true hok] at h
      · simp [Bool.of_not_eq_true hr] at h

/-- One loop step of `GetLastMessageFull` updates exactly the slot of the
line's role. -/
theorem glmfStep_eq (pj : LineParser) (acc : List Char × List Char) (l : List Char) :
    glmfStep pj acc l =
      ((roleClean pj "user" l).getD acc.1, (roleClean pj "assistant" l).getD acc.2) := by
  unfold glmfStep roleClean
  cases lineEntry pj l with
  | none => simp
  | some e =>
    dsimp only
    cases iterMessage e with
    | none => simp
    | some rc =>
      dsimp only
      by_cases hu : (rc.1 == "user") = true
      · have hne : (rc.1 == "assistant") = false := by
          have h1 : rc.1 = "user" := by simpa using hu
          simp [h1]
        cases hok : cleanMessageContent rc.2 != [] &&
            !isSystemOutput (cleanMessageContent rc.2) with
        | true => simp [hu, hne, hok]
        | false => simp [hu, hne, hok]
      · by_cases ha : (rc.1 == "assistant") = true
        · have hne : (rc.1 == "user") = false := by
            have h1 : rc.1 = "assistant" := by simpa using ha
            simp [h1]
          cases hok : cleanMessageContent rc.2 != [] &&
              !isSystemOutput (cleanMessageContent rc.2) with
          | true => simp [ha, hne, hok]
          | false => simp [ha, hne, hok]
        · simp [Bool.of_not_eq_true hu, Bool.of_not_eq_true ha]

/-- The whole loop of `GetLastMessageFull` computes, per role, the last
qualifying cleaned message of the file. -/
theorem glmfFold_eq (pj : LineParser) :
    ∀ (lines : List (List Char)) (acc : List Char × List Char),
      lines.foldl (glmfStep pj) acc =
        ((lastSome? (roleClean pj "user") lines).getD acc.1,
         (lastSome? (roleClean pj "assistant") lines).getD acc.2) := by
  intro lines
  induction lines with
  | nil => intro acc; simp [lastSome?]
  | cons l t ih =>
    intro acc
    rw [List.foldl_cons, ih (glmfStep pj acc l), glmfStep_eq pj acc l]
    cases hu : lastSome? (roleClean pj "user") t <;>
      cases ha : lastSome? (roleClean pj "assistant") t <;>
        simp [lastSome?, hu, ha]

/-- C3 (amended): the full variant returns the most recent qualifying
assistant message of the whole file when one exists, else the most recent
qualifying user message; the display-truncated variant instead returns the
most recent qualifying message of either role within the 50-line tail
window, and (for ordinary messages) its display form is the content
truncated to at most 200 characters plus an ellipsis (203 characters in
all). (The original claim asserted the truncated variant also prefers the
assistant message; it does not.) -/
theorem lastMessageVariants :
    ∀ (pj : LineParser) (content : List Char),
      (getLastMessageFull pj content =
        (match lastSome? (roleClean pj "assistant") (scanLines content) with
         | some a => a
         | none => (lastSome? (roleClean pj "user") (scanLines content)).getD [])) ∧
      (getLastMessageInfo pj content =
        (lastSome? (lineInfo pj) (readLinesFromEnd content 50)).getD emptyMessageInfo) ∧
      ((getLastMessageInfo pj content).isToolCall = false →
        getLastMessage pj content = truncate200 (getLastMessageInfo pj content).content ∧
        (getLastMessage pj content).length ≤ 203) := by
  intro pj content
  refine ⟨?_, ?_, ?_⟩
  · unfold getLastMessageFull
    dsimp only
    rw [glmfFold_eq pj (scanLines content) ([], [])]
    cases ha : lastSome? (roleClean pj "assistant") (scanLines content) with
    | some a =>
      have hne : a ≠ [] :=
        lastSome?_prop (fun l c h => roleClean_ne_nil pj "assistant" l c h) _ a ha
      simp [hne]
    | none => simp
  · unfold getLastMessageInfo
    rw [reverse_findSome?_eq_lastSome?]
  · intro htc
    unfold getLastMessage
    simp only [htc, Bool.false_eq_true, if_false]
    refine ⟨trivial, ?_⟩
    unfold truncate200
    by_cases hlen : (getLastMessageInfo pj content).content.length > 200
    · simp only [hlen, if_true]
      rw [List.length_append, List.length_take]
      have : (chars "...").length = 3 := rfl
      omega
    · simp only [hlen, if_false]
      omega

/-- Witness for C3's truncation clause on the two-line fixture. -/
theorem lastMessageVariants_witness :
    getLastMessage pjFix contentAU =
      truncate200 (getLastMessageInfo pjFix contentAU).content ∧
    (getLastMessage pjFix contentAU).length ≤ 203 :=
  (lastMessageVariants pjFix contentAU).2.2 (by decide)

/-- Counterexample to C3 as stated: on a transcript holding an assistant
message `A` followed by a more recent user message `U`, the full variant
returns `A` but the display-truncated variant returns `U`, not the
truncation of `A` the claim predicts. -/
theorem lastMessageVariants_counterexample :
    getLastMessageFull pjFix contentAU = chars "A" ∧
    getLastMessage pjFix contentAU = chars "U" ∧
    claimC3TruncatedAsWritten pjFix contentAU = chars "A" := by
  refine ⟨rfl, rfl, rfl⟩

/-! ## Claim C10 — tail-window bounds of the windowed scans -/

/-- `splitOnNl` never returns the empty list. -/
theorem splitOnNl_ne_nil : ∀ (s : List Char), splitOnNl s ≠ [] := by
  intro s
  cases s with
  | nil => simp [splitOnNl]
  | cons c cs =>
    unfold splitOnNl
    by_cases hc : (c == '\n') = true
    · simp [hc]
    · simp only [Bool.of_not_eq_true hc, Bool.false_eq_true, if_false]
      cases splitOnNl cs <;> simp

/-- How `splitOnNl` decomposes over an append: the left part's fields stay,
its last field merges with the right part's first field. -/
theorem splitOnNl_append :
    ∀ (a b : List Char) (bh : List Char) (bt : List (List Char)),
      splitOnNl b = bh :: bt →
      ∃ (pre : List (List Char)) (mid : List Char),
        splitOnNl a = pre ++ [mid] ∧
        splitOnNl (a ++ b) = pre ++ (mid ++ bh) :: bt := by
  intro a
  induction a with
  | nil =>
    intro b bh bt hb
    exact ⟨[], [], rfl, by simpa using hb⟩
  | cons c a' ih =>
    intro b bh bt hb
    obtain ⟨pre, mid, h1, h2⟩ := ih b bh bt hb
    by_cases hc : (c == '\n') = true
    · refine ⟨[] :: pre, mid, ?_, ?_⟩
      · show splitOnNl (c :: a') = _
        unfold splitOnNl
        rw [hc]
        simp [h1]
      · show splitOnNl (c :: (a' ++ b)) = _
        unfold splitOnNl
        rw [hc]
        simp [h2]
    · cases pre with
      | nil =>
        refine ⟨[], c :: mid, ?_, ?_⟩
        · show splitOnNl (c :: a') = _
          unfold splitOnNl
          rw [Bool.of_not_eq_true hc]
          simp only [List.nil_append] at h1
          rw [h1]
          simp
        · show splitOnNl (c :: (a' ++ b)) = _
          unfold splitOnNl
          rw [Bool.of_not_eq_true hc]
          simp only [List.nil_append] at h2
          rw [h2]
          simp
      | cons p ps =>
        refine ⟨(c :: p) :: ps, mid, ?_, ?_⟩
        · show splitOnNl (c :: a') = _
          unfold splitOnNl
          rw [Bool.of_not_eq_true hc]
          rw [h1]
          simp
        · show splitOnNl (c :: (a' ++ b)) = _
          unfold splitOnNl
          rw [Bool.of_not_eq_true hc]
          rw [h2]
          simp

/-- `stripTrailEmpty` only inspects the final field. -/
theorem stripTrailEmpty_cons_of_ne_nil (x : List Char) :
    ∀ (l : List (List Char)), l ≠ [] →
      stripTrailEmpty (x :: l) = x :: stripTrailEmpty l := by
  intro l hl
  cases l with
  | nil => exact absurd rfl hl
  | cons y r => rfl

/-- `stripTrailEmpty` passes over any prefix before a nonempty tail. -/
theorem stripTrailEmpty_append :
    ∀ (pre : List (List Char)) (x : List Char) (rest : List (List Char)),
      stripTrailEmpty (pre ++ x :: rest) = pre ++ stripTrailEmpty (x :: rest) := by
  intro pre
  induction pre with
  | nil => intro x rest; rfl
  | cons p ps ih =>
    intro x rest
    rw [List.cons_append,
      stripTrailEmpty_cons_of_ne_nil p (ps ++ x :: rest) (by simp),
      ih x rest, List.cons_append]

/-- A suffix stays a suffix under `map`. -/
theorem isSuffix_map {α β : Type} (f : α → β) {l₁ l₂ : List α}
    (h : l₁ <:+ l₂) : l₁.map f <:+ l₂.map f := by
  obtain ⟨t, ht⟩ := h
  exact ⟨t.map f, by rw [← List.map_append, ht]⟩

/-- Dropping the (possibly partial) first scanned line of a suffix of the
file leaves a suffix of the file's full line list. -/
theorem scanTailSuffix (a b : List Char) :
    (scanLines b).drop 1 <:+ scanLines (a ++ b) := by
  by_cases hb : b = []
  · subst hb
    rw [show scanLines [] = [] from rfl]
    exact List.nil_suffix
  · obtain ⟨bh, bt, hB⟩ : ∃ bh bt, splitOnNl b = bh :: bt := by
      cases hsp : splitOnNl b with
      | nil => exact absurd hsp (splitOnNl_ne_nil b)
      | cons x xs => exact ⟨x, xs, rfl⟩
    obtain ⟨pre, mid, h1, h2⟩ := splitOnNl_append a b bh bt hB
    have hab : a ++ b ≠ [] := by
      intro hcon
      exact hb (List.append_eq_nil.mp hcon).2
    have hsb : scanLines b = (stripTrailEmpty (bh :: bt)).map dropCR := by
      unfold scanLines
      rw [hB]
      simp [hb]
    have hsab : scanLines (a ++ b) =
        (stripTrailEmpty (pre ++ (mid ++ bh) :: bt)).map dropCR := by
      unfold scanLines
      rw [h2]
      simp [hab]
    cases bt with
    | nil =>
      have hlen : ((stripTrailEmpty [bh]).map dropCR).drop 1 = [] := by
        unfold stripTrailEmpty
        by_cases hbh : (bh == []) = true
        · simp [hbh]
        · simp [Bool.of_not_eq_true hbh]
      rw [hsb, hlen]
      exact List.nil_suffix
    | cons t ts =>
      rw [hsb, hsab,
        stripTrailEmpty_cons_of_ne_nil bh (t :: ts) (by simp),
        stripTrailEmpty_append pre (mid ++ bh) (t :: ts),
        stripTrailEmpty_cons_of_ne_nil (mid ++ bh) (t :: ts) (by simp)]
      rw [List.map_cons, List.drop_one, List.tail_cons]
      refine isSuffix_map dropCR ?_
      calc stripTrailEmpty (t :: ts)
          <:+ (mid ++ bh) :: stripTrailEmpty (t :: ts) := List.suffix_cons _ _
        _ <:+ pre ++ (mid ++ bh) :: stripTrailEmpty (t :: ts) := List.suffix_append _ _

/-- The windowed read returns a suffix of the file's line list, of length at
most `maxLines`. -/
theorem readLinesFromEnd_spec (content : List Char) (maxLines : Nat) :
    readLinesFromEnd content maxLines <:+ scanLines content ∧
    (readLinesFromEnd content maxLines).length ≤ maxLines := by
  unfold readLinesFromEnd
  by_cases hsz : (content.length == 0) = true
  · simp only [hsz, if_true]
    exact ⟨List.nil_suffix, by simp⟩
  · simp only [hsz, Bool.false_eq_true, if_false]
    have hpos : 0 < content.length := by
      have : content.length ≠ 0 := by simpa using hsz
      omega
    set readSize := min (maxLines * 500) content.length with hrs
    set startPos := content.length - readSize with hsp
    have hsuffix1 : (if startPos > 0 then (scanLines (content.drop startPos)).drop 1
        else scanLines (content.drop startPos)) <:+ scanLines content := by
      by_cases hstart : startPos > 0
      · simp only [hstart, if_true]
        have hdecomp : content.take startPos ++ content.drop startPos = content :=
          List.take_append_drop startPos content
        have := scanTailSuffix (content.take startPos) (content.drop startPos)
        rw [hdecomp] at this
        exact this
      · simp only [hstart, if_false]
        have hzero : startPos = 0 := by omega
        rw [hzero, List.drop_zero]
    set ls := (if startPos > 0 then (scanLines (content.drop startPos)).drop 1
        else scanLines (content.drop startPos)) with hls
    constructor
    · by_cases hlong : ls.length > maxLines
      · simp only [hlong, if_true]
        exact (List.drop_suffix _ _).trans hsuffix1
      · simp only [hlong, if_false]
        exact hsuffix1
    · by_cases hlong : ls.length > maxLines
      · simp only [hlong, if_true]
        rw [List.length_drop]
        omega
      · simp only [hlong, if_false]
        omega

/-- C10: `GetLastMessageInfo` (used by `GetLastMessage`) inspects only the
final 50 lines of the transcript and `GetMostRecentActivity` only the final
10: each windowed read is a suffix of the file's line list bounded by the
window size, and the two scans are computed from exactly that window, so a
qualifying message lying entirely before the window is never selected. -/
theorem tailWindowOnly :
    ∀ (pj : LineParser) (content : List Char),
      readLinesFromEnd content 50 <:+ scanLines content ∧
      (readLinesFromEnd content 50).length ≤ 50 ∧
      readLinesFromEnd content 10 <:+ scanLines content ∧
      (readLinesFromEnd content 10).length ≤ 10 ∧
      getLastMessageInfo pj content =
        (((readLinesFromEnd content 50).reverse).findSome? (lineInfo pj)).getD
          emptyMessageInfo ∧
      getMostRecentActivity pj content =
        ((readLinesFromEnd content 10).reverse).findSome? (activityLine pj) := by
  intro pj content
  obtain ⟨h1, h2⟩ := readLinesFromEnd_spec content 50
  obtain ⟨h3, h4⟩ := readLinesFromEnd_spec content 10
  exact ⟨h1, h2, h3, h4, rfl, rfl⟩
